import Mathlib

/-!
# Verification of the night-shift route optimizer

Shallow embedding of `src/route_optimizer.py` and `src/real_routing.py`.

Conventions of the embedding:
* pandas DataFrames of passenger rows become Lean lists over an abstract row
  type `P`; slicing (`iloc`) becomes `List.take`/`List.drop`, row filters
  become `List.filter`, and the mutation `passengers['cluster'] = labels`
  becomes pairing each row with its label (`List.zip`).
* The external clustering library (`fit_predict`) is a black box: its output
  is passed in as a list of integer labels, one per row.
* The external routing service is a black box: per-pair travel durations are
  passed in as an oracle function, and the raw OSRM reply is passed in as an
  explicit value where its parsing is modelled.
* Python floats carrying durations/distances/rates are modelled as `ℚ`.
* A Python exception is an `Except.error`; the blanket `try/except` of
  `generate_routes` is the total wrapper mapping any error to the fixed
  empty result.
-/

variable {P Q : Type}

/-- `RouteOptimizer.__init__`: the capacity catalog is stored sorted in
descending order (`sorted(bus_capacities, reverse=True)`, a stable
descending sort). -/
def initBusCapacities (bus_capacities : List Nat) : List Nat :=
  bus_capacities.insertionSort (fun a b => b ≤ a)

/-- One vehicle assignment dict produced by `optimize_vehicle_assignment`:
keys `'capacity'`, `'passengers_count'`, `'passengers'`. -/
structure VehicleAssignment (P : Type) where
  capacity : Nat
  passengers_count : Nat
  passengers : List P
deriving DecidableEq

/-- The inner `while remaining_passengers >= capacity` loop of
`optimize_vehicle_assignment`, written with an explicit iteration bound so
it is structural: each pass carves `c ≥ 1` passengers off the front of the
cluster (`iloc[:capacity]` / `iloc[capacity:]`), so `ps.length` passes
always suffice.  The guard `0 < c` restricts to the terminating domain: in
Python a capacity of `0` would loop forever, and all configured capacities
are positive. -/
def carveFuel (c : Nat) : Nat → List P → List (List P) × List P
  | 0, ps => ([], ps)
  | fuel + 1, ps =>
    if 0 < c ∧ c ≤ ps.length then
      let rest := carveFuel c fuel (ps.drop c)
      (ps.take c :: rest.1, rest.2)
    else
      ([], ps)

/-- The fully-run carving loop for one capacity value. -/
def carve (c : Nat) (ps : List P) : List (List P) × List P :=
  carveFuel c ps.length ps

/-- The per-cluster body of `optimize_vehicle_assignment`: greedily pack
full buses largest-capacity-first, then put any remainder into the smallest
sufficient capacity; `min` of an empty candidate list raises `ValueError`
in Python, modelled as an `Except.error`. -/
def assignCluster (bus_capacities : List Nat) (ps : List P) :
    Except String (List (VehicleAssignment P)) :=
  let packed := bus_capacities.foldl
    (fun (acc : List (VehicleAssignment P) × List P) c =>
      let r := carve c acc.2
      (acc.1 ++ r.1.map (fun b => ⟨c, c, b⟩), r.2))
    ([], ps)
  if packed.2.isEmpty then
    Except.ok packed.1
  else
    match bus_capacities.filter (fun cap => packed.2.length ≤ cap) with
    | [] => Except.error "min() arg is an empty sequence"
    | c :: cs =>
        Except.ok (packed.1 ++ [⟨cs.foldl Nat.min c, packed.2.length, packed.2⟩])

/-- `RouteOptimizer.optimize_vehicle_assignment` over the dict of clusters
(iterated in insertion order): concatenates the per-cluster assignments,
propagating the first raised error. -/
def optimize_vehicle_assignment (bus_capacities : List Nat)
    (clusters : List (List P)) : Except String (List (VehicleAssignment P)) := do
  let ass ← clusters.mapM (assignCluster bus_capacities)
  return ass.flatten

/-- The first element of `l` achieving the minimal key: the behaviour of
Python's `min(iterable, key=...)`, which keeps the earliest element among
ties in iteration order.  `none` exactly when the list is empty. -/
def argminKey (key : Nat → ℚ) : List Nat → Option Nat
  | [] => none
  | x :: xs =>
    match argminKey key xs with
    | none => some x
    | some b => if key b < key x then some b else some x

theorem argminKey_ne_none (key : Nat → ℚ) (x : Nat) (xs : List Nat) :
    argminKey key (x :: xs) ≠ none := by
  simp only [argminKey]
  cases argminKey key xs with
  | none => simp
  | some b => by_cases h : key b < key x <;> simp [h]

theorem argminKey_mem {key : Nat → ℚ} {l : List Nat} {x : Nat}
    (h : argminKey key l = some x) : x ∈ l := by
  induction l with
  | nil => simp [argminKey] at h
  | cons a t ih =>
    simp only [argminKey] at h
    cases ht : argminKey key t with
    | none => rw [ht] at h; cases h; exact List.mem_cons_self _ _
    | some b =>
      rw [ht] at h
      simp only at h
      by_cases hb : key b < key a
      · rw [if_pos hb] at h
        cases h
        exact List.mem_cons_of_mem _ (ih ht)
      · rw [if_neg hb] at h
        cases h
        exact List.mem_cons_self _ _

/-- The `while unvisited:` loop of `solve_tsp_greedy`, with an explicit
iteration bound so it is structural (every pass removes one index, so
`unvisited.length` passes always suffice): pick the unvisited index
nearest to the current one (`min(unvisited, key=...)`), append it, and
continue from there.  The unvisited set of small consecutive ints is
modelled as a list kept in Python set-iteration order (increasing:
CPython iterates a set of small ints built from `range` and shrunk by
`remove` in increasing order). -/
def tspLoop (D : Nat → Nat → ℚ) : Nat → Nat → List Nat → List Nat
  | 0, _, _ => []
  | fuel + 1, current, unvisited =>
    match argminKey (D current) unvisited with
    | none => []
    | some nearest => nearest :: tspLoop D fuel nearest (unvisited.erase nearest)

/-- `RouteOptimizer.solve_tsp_greedy`: nearest-neighbour TSP heuristic over
an `n × n` duration matrix, starting at `start_idx` (default `0` at every
call site). -/
def solve_tsp_greedy (D : Nat → Nat → ℚ) (n : Nat) (start_idx : Nat := 0) :
    List Nat :=
  start_idx :: tspLoop D n start_idx ((List.range n).erase start_idx)

/-- Writing one cell of a numpy matrix: `m[i][j] = v`. -/
def writeEntry (m : Nat → Nat → ℚ) (i j : Nat) (v : ℚ) : Nat → Nat → ℚ :=
  fun a b => if a = i ∧ b = j then v else m a b

/-- The shared double loop of `calculate_distance_matrix` and
`calculate_real_distance_matrix`: start from `np.zeros((n, n))` and, for
every `i` and every `j` in `range(i+1, n)`, issue one query `q i j` and
write its value to both `(i, j)` and `(j, i)`. -/
def fillPairs (q : Nat → Nat → ℚ) (n : Nat) : Nat → Nat → ℚ :=
  (List.range n).foldl
    (fun m i =>
      (List.range' (i + 1) (n - (i + 1))).foldl
        (fun m' j => writeEntry (writeEntry m' i j (q i j)) j i (q i j)) m)
    (fun _ _ => 0)

/-- `RouteOptimizer.calculate_distance_matrix`: pairwise geodesic distance
matrix; `geo i j` is the black-box `geodesic(coords[i], coords[j]).kilometers`. -/
def calculate_distance_matrix (geo : Nat → Nat → ℚ) (n : Nat) :
    Nat → Nat → ℚ :=
  fillPairs geo n

/-- `RouteOptimizer.calculate_real_distance_matrix`: pairwise travel-time
matrix; `dur i j` is the black-box
`route_calculator.get_route_duration_distance(coords[i], coords[j])[0]`. -/
def calculate_real_distance_matrix (dur : Nat → Nat → ℚ) (n : Nat) :
    Nat → Nat → ℚ :=
  fillPairs dur n

/-- `RouteOptimizer.cluster_passengers` with the default `method='kmeans'`
(the one `generate_routes` uses): attach the label `fit_predict` returned
for each row (`passengers['cluster'] = clustering.fit_predict(coords)`);
all other columns of each row are untouched.  The black-box `fit_predict`
output is the `labels` argument. -/
def cluster_passengers (ps : List P) (labels : List Int) : List (P × Int) :=
  ps.zip labels

/-- The DBSCAN noise pass of `cluster_passengers`: rows labelled `-1` get
consecutive fresh labels `k, k+1, ...` in row order
(`passengers.loc[noise_mask, 'cluster'] = range(max_cluster+1, ...)`). -/
def reassignNoise : Int → List (P × Int) → List (P × Int)
  | _, [] => []
  | k, q :: t =>
    if q.2 = -1 then (q.1, k) :: reassignNoise (k + 1) t
    else q :: reassignNoise k t

/-- `RouteOptimizer.cluster_passengers` with `method='dbscan'`: attach the
labels, then promote each noise row (`cluster == -1`) to its own fresh
singleton label starting after `max_cluster`.  DBSCAN labels are `≥ -1`,
so folding `max` from `-1` computes `passengers['cluster'].max()`. -/
def cluster_passengers_dbscan (ps : List P) (labels : List Int) :
    List (P × Int) :=
  let zipped := ps.zip labels
  if zipped.any (fun q => q.2 == -1) then
    reassignNoise ((zipped.map (fun q => q.2)).foldl max (-1) + 1) zipped
  else zipped

/-- Order-of-first-appearance deduplication: the behaviour of pandas
`Series.unique()` on the cluster column. -/
def uniqueInOrder (l : List Int) : List Int :=
  l.foldl (fun acc x => if x ∈ acc then acc else acc ++ [x]) []

/-- Step 2 of `generate_routes`: the dict from cluster id to the rows of
that cluster, iterated in insertion order (= order of first appearance,
since `unique()` lists labels in order of appearance and Python dicts
preserve insertion order).  Row order inside each cluster is preserved by
the DataFrame filter. -/
def clustersOf (clustered : List (P × Int)) : List (List (P × Int)) :=
  (uniqueInOrder (clustered.map (fun q => q.2))).map
    (fun c => clustered.filter (fun q => q.2 == c))

/-- The per-vehicle sequencing step of `generate_routes`: when the bus has
more than one passenger, build the real travel-time matrix over its rows,
run the greedy TSP from index 0 and reorder the rows by the resulting
index list (`bus_passengers.iloc[optimal_route]`); otherwise the rows are
used unchanged and no matrix is built. -/
def sequencePassengers [Inhabited Q] (dur : Q → Q → ℚ) (ps : List Q) :
    List Q :=
  if 1 < ps.length then
    let D := calculate_real_distance_matrix
      (fun i j => dur (ps.getD i default) (ps.getD j default)) ps.length
    (solve_tsp_greedy D ps.length).map (fun i => ps.getD i default)
  else ps

/-- One entry of `routes_data` (the keys the core claims are about;
`bus_id`, plate and the OSRM geometry are black-box presentation data). -/
structure RouteInfo (P : Type) where
  capacity : Nat
  passengers_count : Nat
  passengers : List (P × Int)
deriving DecidableEq

/-- The `'summary'` dict of `generate_routes`. -/
structure RouteSummary where
  total_passengers : Nat
  total_buses : Nat
  total_capacity : Nat
  utilization_rate : ℚ
deriving DecidableEq

/-- The dict returned by `generate_routes`. -/
structure RoutesResult (P : Type) where
  routes : List (RouteInfo P)
  summary : RouteSummary
deriving DecidableEq

/-- The dict built by the `except` branch of `generate_routes`: empty
routes and an all-zero summary. -/
def emptyRoutesResult (P : Type) : RoutesResult P :=
  { routes := [], summary := ⟨0, 0, 0, 0⟩ }

/-- The `try` block of `RouteOptimizer.generate_routes`: cluster, group by
cluster, assign vehicles (this step can raise), sequence each vehicle's
passengers, and compute the summary.  `dur` is the black-box per-pair
travel-duration oracle, `labels` the black-box clustering output. -/
def generate_routes_core [Inhabited P] (dur : P × Int → P × Int → ℚ)
    (bus_capacities : List Nat) (ps : List P) (labels : List Int) :
    Except String (RoutesResult P) :=
  match optimize_vehicle_assignment bus_capacities
      (clustersOf (cluster_passengers ps labels)) with
  | Except.error e => Except.error e
  | Except.ok assignments =>
    let routes := assignments.map
      (fun a => RouteInfo.mk a.capacity a.passengers_count
        (sequencePassengers dur a.passengers))
    let total_capacity : Nat := (routes.map (fun r => r.capacity)).sum
    let utilization : ℚ :=
      if 0 < total_capacity then (ps.length : ℚ) / (total_capacity : ℚ) else 0
    Except.ok { routes := routes,
                summary := ⟨ps.length, routes.length, total_capacity, utilization⟩ }

/-- `RouteOptimizer.generate_routes`: the `try` block with the blanket
`except Exception` handler that converts any raised error into the fixed
empty result. -/
def generate_routes [Inhabited P] (dur : P × Int → P × Int → ℚ)
    (bus_capacities : List Nat) (ps : List P) (labels : List Int) :
    RoutesResult P :=
  match generate_routes_core dur bus_capacities ps labels with
  | Except.ok r => r
  | Except.error _ => emptyRoutesResult P

/-- One element of the `routes` array of an OSRM JSON reply:
`duration` in seconds, `distance` in metres. -/
structure OSRMRouteLeg where
  duration : ℚ
  distance : ℚ
deriving DecidableEq

/-- Outcome of the primary path of
`RealRouteCalculator.get_route_duration_distance`: either some exception
was raised before a payload was decoded (network failure, timeout,
`raise_for_status` on a non-success response, malformed JSON), or a decoded
payload with its `code` field and `routes` array. -/
inductive OSRMReply where
  | failure (msg : String)
  | payload (code : String) (routes : List OSRMRouteLeg)
deriving DecidableEq

/-- `RealRouteCalculator.get_route_duration_distance`, returning
`(minutes, kilometers)`.  The primary path succeeds only on a payload with
`code == 'Ok'` and a non-empty `routes` array, yielding
`(duration/60, distance/1000)`; every other reply falls through to the
fallback: `geo` is the black-box
`geodesic(origin, destination).kilometers`, and minutes are derived at the
assumed average speed of 25 km/h. -/
def get_route_duration_distance (geo : ℚ × ℚ → ℚ × ℚ → ℚ)
    (reply : OSRMReply) (origin destination : ℚ × ℚ) : ℚ × ℚ :=
  match reply with
  | OSRMReply.payload "Ok" (route :: _) =>
      (route.duration / 60, route.distance / 1000)
  | _ =>
      let distance_km := geo origin destination
      (distance_km / 25 * 60, distance_km)

deriving instance DecidableEq for Except

/-! ## Helper lemmas about the carving loop -/

theorem carveFuel_flatten (c : Nat) (fuel : Nat) (ps : List P) :
    ((carveFuel c fuel ps).1).flatten ++ (carveFuel c fuel ps).2 = ps := by
  induction fuel generalizing ps with
  | zero => simp [carveFuel]
  | succ fuel ih =>
    by_cases h : 0 < c ∧ c ≤ ps.length
    · simp only [carveFuel, if_pos h, List.flatten_cons, List.append_assoc]
      rw [ih (ps.drop c)]
      exact List.take_append_drop c ps
    · simp [carveFuel, if_neg h]

theorem carveFuel_bus_length (c : Nat) (fuel : Nat) (ps : List P) :
    ∀ b ∈ (carveFuel c fuel ps).1, b.length = c := by
  induction fuel generalizing ps with
  | zero => simp [carveFuel]
  | succ fuel ih =>
    by_cases h : 0 < c ∧ c ≤ ps.length
    · simp only [carveFuel, if_pos h, List.mem_cons]
      intro b hb
      rcases hb with hb | hb
      · subst hb; exact List.length_take_of_le h.2
      · exact ih (ps.drop c) b hb
    · simp [carveFuel, if_neg h]

theorem carve_flatten (c : Nat) (ps : List P) :
    ((carve c ps).1).flatten ++ (carve c ps).2 = ps :=
  carveFuel_flatten c ps.length ps

theorem carve_bus_length (c : Nat) (ps : List P) :
    ∀ b ∈ (carve c ps).1, b.length = c :=
  carveFuel_bus_length c ps.length ps

/-! ## Helper lemmas about minima of nonempty lists -/

theorem foldl_min_mem (a : Nat) (l : List Nat) :
    l.foldl Nat.min a ∈ a :: l := by
  induction l generalizing a with
  | nil => simp
  | cons x t ih =>
    simp only [List.foldl_cons]
    rcases List.mem_cons.mp (ih (Nat.min a x)) with h | h
    · by_cases hax : a ≤ x
      · have hmin : Nat.min a x = a := by simp [Nat.min_def, hax]
        rw [h, hmin]; exact List.mem_cons_self _ _
      · have hmin : Nat.min a x = x := by simp [Nat.min_def, hax]
        rw [h, hmin]
        exact List.mem_cons_of_mem _ (List.mem_cons_self _ _)
    · exact List.mem_cons_of_mem _ (List.mem_cons_of_mem _ h)

theorem le_foldl_min (k a : Nat) (l : List Nat)
    (h : ∀ x ∈ a :: l, k ≤ x) : k ≤ l.foldl Nat.min a := by
  induction l generalizing a with
  | nil => exact h a (List.mem_cons_self _ _)
  | cons x t ih =>
    simp only [List.foldl_cons]
    refine ih (Nat.min a x) ?_
    intro y hy
    rcases List.mem_cons.mp hy with hy | hy
    · subst hy
      have h1 := h a (List.mem_cons_self _ _)
      have h2 := h x (List.mem_cons_of_mem _ (List.mem_cons_self _ _))
      simp only [Nat.min_def]
      split <;> omega
    · exact h y (List.mem_cons_of_mem _ (List.mem_cons_of_mem _ hy))

/-! ## Invariants of `assignCluster` and `optimize_vehicle_assignment` -/

/-- The invariant of the greedy packing fold of `assignCluster`: the
passengers of the produced buses followed by the remaining passengers are
exactly the starting passengers, every bus added along the way is full
(its passenger list has exactly `capacity` entries), its count equals its
capacity, and its capacity is one of the iterated values. -/
theorem packLoop_inv (caps : List Nat) (acc : List (VehicleAssignment P) × List P) :
    (((caps.foldl
        (fun (acc : List (VehicleAssignment P) × List P) c =>
          let r := carve c acc.2
          (acc.1 ++ r.1.map (fun b => ⟨c, c, b⟩), r.2))
        acc).1.map (fun a => a.passengers)).flatten ++
      (caps.foldl
        (fun (acc : List (VehicleAssignment P) × List P) c =>
          let r := carve c acc.2
          (acc.1 ++ r.1.map (fun b => ⟨c, c, b⟩), r.2))
        acc).2 =
      (acc.1.map (fun a => a.passengers)).flatten ++ acc.2) ∧
    (∀ a ∈ (caps.foldl
        (fun (acc : List (VehicleAssignment P) × List P) c =>
          let r := carve c acc.2
          (acc.1 ++ r.1.map (fun b => ⟨c, c, b⟩), r.2))
        acc).1,
      a ∈ acc.1 ∨
        (a.passengers_count = a.capacity ∧ a.capacity ∈ caps ∧
          a.passengers.length = a.capacity)) := by
  induction caps generalizing acc with
  | nil => exact ⟨rfl, fun a ha => Or.inl ha⟩
  | cons c cs ih =>
    simp only [List.foldl_cons]
    obtain ⟨ih1, ih2⟩ := ih (acc.1 ++ (carve c acc.2).1.map
      (fun b => (⟨c, c, b⟩ : VehicleAssignment P)), (carve c acc.2).2)
    constructor
    · rw [ih1]
      simp only [List.map_append, List.flatten_append, List.append_assoc]
      congr 1
      have hmap : ((carve c acc.2).1.map
          (fun b => (⟨c, c, b⟩ : VehicleAssignment P))).map
            (fun a => a.passengers) = (carve c acc.2).1 := by
        rw [List.map_map]
        exact List.map_id'' (fun x => rfl) _
      rw [hmap]
      exact carve_flatten c acc.2
    · intro a ha
      rcases ih2 a ha with hmem | hgood
      · rcases List.mem_append.mp hmem with hmem | hmem
        · exact Or.inl hmem
        · obtain ⟨b, hb, hba⟩ := List.mem_map.mp hmem
          refine Or.inr ?_
          subst hba
          exact ⟨rfl, List.mem_cons_self _ _, carve_bus_length c acc.2 b hb⟩
      · exact Or.inr ⟨hgood.1, List.mem_cons_of_mem _ hgood.2.1, hgood.2.2⟩

/-- Every assignment an `Except.ok` run of `assignCluster` produces has a
passenger list of exactly `passengers_count` entries, `passengers_count`
bounded by `capacity`, and a `capacity` drawn from the catalog. -/
theorem assignCluster_ok_inv {caps : List Nat} {ps : List P}
    {as : List (VehicleAssignment P)} (h : assignCluster caps ps = Except.ok as) :
    ∀ a ∈ as, a.passengers_count ≤ a.capacity ∧ a.capacity ∈ caps ∧
      a.passengers.length = a.passengers_count := by
  unfold assignCluster at h
  obtain ⟨hflat, hgood⟩ := packLoop_inv caps (([], ps) : List (VehicleAssignment P) × List P)
  set packed := caps.foldl
    (fun (acc : List (VehicleAssignment P) × List P) c =>
      let r := carve c acc.2
      (acc.1 ++ r.1.map (fun b => ⟨c, c, b⟩), r.2))
    ([], ps) with hpacked
  by_cases hemp : packed.2.isEmpty
  · rw [if_pos hemp] at h
    cases h
    intro a ha
    rcases hgood a ha with hmem | hg
    · simp at hmem
    · exact ⟨le_of_eq hg.1, hg.2.1, hg.1 ▸ hg.2.2⟩
  · rw [if_neg hemp] at h
    cases hfil : caps.filter (fun cap => decide (packed.2.length ≤ cap)) with
    | nil => rw [hfil] at h; cases h
    | cons c cs =>
      rw [hfil] at h
      cases h
      intro a ha
      rcases List.mem_append.mp ha with hmem | hmem
      · rcases hgood a hmem with hmem2 | hg
        · simp at hmem2
        · exact ⟨le_of_eq hg.1, hg.2.1, hg.1 ▸ hg.2.2⟩
      · rcases List.mem_singleton.mp hmem with rfl
        refine ⟨?_, ?_, rfl⟩
        · show packed.2.length ≤ cs.foldl Nat.min c
          refine le_foldl_min _ c cs ?_
          intro x hx
          rw [← hfil] at hx
          exact of_decide_eq_true (List.mem_filter.mp hx).2
        · show cs.foldl Nat.min c ∈ caps
          have hmm : cs.foldl Nat.min c ∈ c :: cs := foldl_min_mem c cs
          rw [← hfil] at hmm
          exact List.mem_of_mem_filter hmm

/-- An `Except.ok` run of `assignCluster` partitions its cluster exactly:
concatenating the buses' passenger lists gives back the cluster. -/
theorem assignCluster_ok_flatten {caps : List Nat} {ps : List P}
    {as : List (VehicleAssignment P)} (h : assignCluster caps ps = Except.ok as) :
    (as.map (fun a => a.passengers)).flatten = ps := by
  unfold assignCluster at h
  obtain ⟨hflat, _⟩ := packLoop_inv caps (([], ps) : List (VehicleAssignment P) × List P)
  set packed := caps.foldl
    (fun (acc : List (VehicleAssignment P) × List P) c =>
      let r := carve c acc.2
      (acc.1 ++ r.1.map (fun b => ⟨c, c, b⟩), r.2))
    ([], ps) with hpacked
  simp only [List.map_nil, List.flatten_nil, List.nil_append] at hflat
  by_cases hemp : packed.2.isEmpty
  · rw [if_pos hemp] at h
    cases h
    have : packed.2 = [] := List.isEmpty_iff.mp hemp
    rw [this, List.append_nil] at hflat
    exact hflat
  · rw [if_neg hemp] at h
    cases hfil : caps.filter (fun cap => decide (packed.2.length ≤ cap)) with
    | nil => rw [hfil] at h; cases h
    | cons c cs =>
      rw [hfil] at h
      cases h
      simp only [List.map_append, List.flatten_append, List.map_cons, List.map_nil,
        List.flatten_cons, List.flatten_nil, List.append_nil]
      exact hflat

/-- The passenger counts of an `Except.ok` run of `assignCluster` sum to
the cluster's size. -/
theorem assignCluster_ok_sum {caps : List Nat} {ps : List P}
    {as : List (VehicleAssignment P)} (h : assignCluster caps ps = Except.ok as) :
    (as.map (fun a => a.passengers_count)).sum = ps.length := by
  have hinv := assignCluster_ok_inv h
  have hflat := assignCluster_ok_flatten h
  have hcounts : as.map (fun a => a.passengers_count) =
      as.map (fun a => a.passengers.length) := by
    refine List.map_congr_left ?_
    intro a ha
    exact ((hinv a ha).2.2).symm
  rw [hcounts, ← hflat]
  rw [List.length_flatten]
  rw [List.map_map]
  rfl

theorem optimize_ok_flatten {caps : List Nat} {clusters : List (List P)}
    {as : List (VehicleAssignment P)}
    (h : optimize_vehicle_assignment caps clusters = Except.ok as) :
    (as.map (fun a => a.passengers)).flatten = clusters.flatten := by
  unfold optimize_vehicle_assignment at h
  induction clusters generalizing as with
  | nil =>
    simp only [List.mapM_nil] at h
    cases h
    rfl
  | cons cl cls ih =>
    simp only [List.mapM_cons] at h
    cases hcl : assignCluster caps cl with
    | error e => rw [hcl] at h; cases h
    | ok a1 =>
      rw [hcl] at h
      cases hrest : cls.mapM (assignCluster caps) with
      | error e => rw [hrest] at h; cases h
      | ok rest =>
        rw [hrest] at h
        cases h
        simp only [List.flatten_cons, List.map_append, List.flatten_append]
        rw [assignCluster_ok_flatten hcl]
        congr 1
        have : (do
            let ass ← cls.mapM (assignCluster caps)
            return ass.flatten) = Except.ok rest.flatten := by
          rw [hrest]; rfl
        exact ih this

theorem optimize_ok_inv {caps : List Nat} {clusters : List (List P)}
    {as : List (VehicleAssignment P)}
    (h : optimize_vehicle_assignment caps clusters = Except.ok as) :
    ∀ a ∈ as, a.passengers_count ≤ a.capacity ∧ a.capacity ∈ caps ∧
      a.passengers.length = a.passengers_count := by
  unfold optimize_vehicle_assignment at h
  induction clusters generalizing as with
  | nil =>
    simp only [List.mapM_nil] at h
    cases h
    intro a ha
    simp at ha
  | cons cl cls ih =>
    simp only [List.mapM_cons] at h
    cases hcl : assignCluster caps cl with
    | error e => rw [hcl] at h; cases h
    | ok a1 =>
      rw [hcl] at h
      cases hrest : cls.mapM (assignCluster caps) with
      | error e => rw [hrest] at h; cases h
      | ok rest =>
        rw [hrest] at h
        cases h
        intro a ha
        simp only [List.flatten_cons] at ha
        rcases List.mem_append.mp ha with hmem | hmem
        · exact assignCluster_ok_inv hcl a hmem
        · have : (do
              let ass ← cls.mapM (assignCluster caps)
              return ass.flatten) = Except.ok rest.flatten := by
            rw [hrest]; rfl
          exact ih this a hmem

/-! ## The per-cluster grouping partitions the clustered rows -/

theorem uniqueInOrder_aux_mem (l : List Int) (acc : List Int) (a : Int) :
    (a ∈ l.foldl (fun acc x => if x ∈ acc then acc else acc ++ [x]) acc) ↔
      a ∈ acc ∨ a ∈ l := by
  induction l generalizing acc with
  | nil => simp
  | cons x xs ih =>
    simp only [List.foldl_cons]
    rw [ih]
    by_cases hx : x ∈ acc
    · rw [if_pos hx]
      constructor
      · rintro (h | h)
        · exact Or.inl h
        · exact Or.inr (List.mem_cons_of_mem _ h)
      · rintro (h | h)
        · exact Or.inl h
        · rcases List.mem_cons.mp h with rfl | h
          · exact Or.inl hx
          · exact Or.inr h
    · rw [if_neg hx]
      constructor
      · rintro (h | h)
        · rcases List.mem_append.mp h with h | h
          · exact Or.inl h
          · rcases List.mem_singleton.mp h with rfl
            exact Or.inr (List.mem_cons_self _ _)
        · exact Or.inr (List.mem_cons_of_mem _ h)
      · rintro (h | h)
        · exact Or.inl (List.mem_append.mpr (Or.inl h))
        · rcases List.mem_cons.mp h with rfl | h
          · exact Or.inl (List.mem_append.mpr (Or.inr (List.mem_singleton.mpr rfl)))
          · exact Or.inr h

theorem uniqueInOrder_mem (l : List Int) (a : Int) :
    a ∈ uniqueInOrder l ↔ a ∈ l := by
  unfold uniqueInOrder
  rw [uniqueInOrder_aux_mem]
  simp

theorem uniqueInOrder_aux_nodup (l : List Int) (acc : List Int)
    (hacc : acc.Nodup) :
    (l.foldl (fun acc x => if x ∈ acc then acc else acc ++ [x]) acc).Nodup := by
  induction l generalizing acc with
  | nil => exact hacc
  | cons x xs ih =>
    simp only [List.foldl_cons]
    by_cases hx : x ∈ acc
    · rw [if_pos hx]; exact ih acc hacc
    · rw [if_neg hx]
      refine ih _ ?_
      rw [List.nodup_append]
      exact ⟨hacc, List.nodup_singleton x, by simpa using hx⟩

theorem uniqueInOrder_nodup (l : List Int) : (uniqueInOrder l).Nodup :=
  uniqueInOrder_aux_nodup l [] List.nodup_nil

/-- Splitting a list into its fibers over a nodup list of keys covering all
its elements is a permutation of the list. -/
theorem flatten_filter_perm {α : Type} (key : α → Int) (cs : List Int)
    (xs : List α) (hnd : cs.Nodup) (hcov : ∀ x ∈ xs, key x ∈ cs) :
    ((cs.map (fun c => xs.filter (fun x => key x == c))).flatten).Perm xs := by
  induction cs generalizing xs with
  | nil =>
    cases xs with
    | nil => simp
    | cons x t => exact absurd (hcov x (List.mem_cons_self _ _)) (by simp)
  | cons c cs' ih =>
    simp only [List.map_cons, List.flatten_cons]
    have hnd' : cs'.Nodup := (List.nodup_cons.mp hnd).2
    have hcns : c ∉ cs' := (List.nodup_cons.mp hnd).1
    have hrw : cs'.map (fun d => xs.filter (fun x => key x == d)) =
        cs'.map (fun d => (xs.filter (fun x => !(key x == c))).filter
          (fun x => key x == d)) := by
      refine List.map_congr_left ?_
      intro d hd
      rw [List.filter_filter]
      refine (List.filter_congr ?_).symm
      intro x _
      by_cases hxd : key x = d
      · have hdc : d ≠ c := fun hdc => hcns (hdc ▸ hd)
        simp [hxd, hdc]
      · simp [hxd]
    rw [hrw]
    have hcov' : ∀ x ∈ xs.filter (fun x => !(key x == c)), key x ∈ cs' := by
      intro x hx
      have hx1 := List.mem_of_mem_filter hx
      have hx2 := (List.mem_filter.mp hx).2
      rcases List.mem_cons.mp (hcov x hx1) with hc | hc
      · exfalso
        rw [hc] at hx2
        simp at hx2
      · exact hc
    refine List.Perm.trans
      (List.Perm.append_left _ (ih _ hnd' hcov')) ?_
    exact List.filter_append_perm _ xs

/-- The cluster dict built in step 2 of `generate_routes` partitions the
clustered rows: concatenating all clusters gives back each row exactly
once. -/
theorem clustersOf_perm (clustered : List (P × Int)) :
    ((clustersOf clustered).flatten).Perm clustered := by
  unfold clustersOf
  refine flatten_filter_perm (fun q : P × Int => q.2) _ _ (uniqueInOrder_nodup _) ?_
  intro x hx
  rw [uniqueInOrder_mem]
  exact List.mem_map_of_mem (fun q : P × Int => q.2) hx

/-! ## The greedy TSP output is a permutation of the index range -/

theorem tspLoop_perm (D : Nat → Nat → ℚ) (fuel : Nat) (current : Nat)
    (unvisited : List Nat) (hfuel : unvisited.length ≤ fuel) :
    (tspLoop D fuel current unvisited).Perm unvisited := by
  induction fuel generalizing current unvisited with
  | zero =>
    have : unvisited = [] := List.length_eq_zero.mp (Nat.le_zero.mp hfuel)
    subst this
    simp [tspLoop]
  | succ fuel ih =>
    simp only [tspLoop]
    cases hmin : argminKey (D current) unvisited with
    | none =>
      cases unvisited with
      | nil => simp
      | cons x t => exact absurd hmin (argminKey_ne_none (D current) x t)
    | some nearest =>
      have hmem := argminKey_mem hmin
      have hlen : (unvisited.erase nearest).length ≤ fuel := by
        rw [List.length_erase_of_mem hmem]
        have : 0 < unvisited.length :=
          List.length_pos.mpr (List.ne_nil_of_mem hmem)
        omega
      refine List.Perm.trans (List.Perm.cons nearest (ih nearest _ hlen)) ?_
      exact (List.perm_cons_erase hmem).symm

theorem solve_tsp_greedy_perm (D : Nat → Nat → ℚ) (n : Nat) (hn : 1 ≤ n) :
    (solve_tsp_greedy D n).Perm (List.range n) := by
  unfold solve_tsp_greedy
  have h0 : 0 ∈ List.range n := List.mem_range.mpr hn
  have hlen : ((List.range n).erase 0).length ≤ n := by
    rw [List.length_erase_of_mem h0, List.length_range]
    omega
  refine List.Perm.trans (List.Perm.cons 0 (tspLoop_perm D n 0 _ hlen)) ?_
  exact (List.perm_cons_erase h0).symm

/-- Reading a whole list back by positional defaults gives the list. -/
theorem map_getD_range {α : Type} (l : List α) (d : α) :
    (List.range l.length).map (fun i => l.getD i d) = l := by
  induction l with
  | nil => simp
  | cons a t ih =>
    rw [List.length_cons, List.range_succ_eq_map]
    simp only [List.map_cons, List.getD_cons_zero, List.map_map]
    congr 1

/-- The sequencing step of `generate_routes` permutes the bus's rows. -/
theorem sequencePassengers_perm [Inhabited Q] (dur : Q → Q → ℚ)
    (ps : List Q) : (sequencePassengers dur ps).Perm ps := by
  unfold sequencePassengers
  by_cases h : 1 < ps.length
  · rw [if_pos h]
    have hperm := solve_tsp_greedy_perm
      (calculate_real_distance_matrix
        (fun i j => dur (ps.getD i default) (ps.getD j default)) ps.length)
      ps.length (by omega)
    have := List.Perm.map (fun i => ps.getD i default) hperm
    rw [map_getD_range ps default] at this
    exact this
  · rw [if_neg h]

/-- With at most one row, the sequencing step returns its input unchanged
(and, by definition, builds no travel matrix). -/
theorem sequencePassengers_short [Inhabited Q] (dur : Q → Q → ℚ)
    (ps : List Q) (h : ps.length ≤ 1) : sequencePassengers dur ps = ps := by
  unfold sequencePassengers
  rw [if_neg (by omega)]

/-! ## Unfolding a successful `generate_routes_core` run -/

/-- Pointwise-permuted lists have permuted concatenations. -/
theorem flatten_map_perm_of_pointwise {α β : Type} (l : List α)
    (f g : α → List β) (h : ∀ a ∈ l, (f a).Perm (g a)) :
    ((l.map f).flatten).Perm ((l.map g).flatten) := by
  induction l with
  | nil => simp
  | cons a t ih =>
    simp only [List.map_cons, List.flatten_cons]
    exact List.Perm.append (h a (List.mem_cons_self _ _))
      (ih (fun b hb => h b (List.mem_cons_of_mem _ hb)))

/-- A successful `generate_routes_core` run comes from a successful
vehicle assignment, and its routes and summary are built from it exactly
as the `try` block does. -/
theorem generate_routes_core_ok [Inhabited P] {dur : P × Int → P × Int → ℚ}
    {caps : List Nat} {ps : List P} {labels : List Int} {r : RoutesResult P}
    (h : generate_routes_core dur caps ps labels = Except.ok r) :
    ∃ as, optimize_vehicle_assignment caps
        (clustersOf (cluster_passengers ps labels)) = Except.ok as ∧
      r.routes = as.map (fun a => RouteInfo.mk a.capacity a.passengers_count
        (sequencePassengers dur a.passengers)) ∧
      r.summary.total_passengers = ps.length ∧
      r.summary.total_buses = r.routes.length ∧
      r.summary.total_capacity = (r.routes.map (fun rt => rt.capacity)).sum ∧
      r.summary.utilization_rate =
        (if 0 < (r.routes.map (fun rt => rt.capacity)).sum then
          (ps.length : ℚ) / (((r.routes.map (fun rt => rt.capacity)).sum : Nat) : ℚ)
        else 0) := by
  unfold generate_routes_core at h
  cases hova : optimize_vehicle_assignment caps
      (clustersOf (cluster_passengers ps labels)) with
  | error e =>
    rw [hova] at h
    simp at h
  | ok as =>
    rw [hova] at h
    simp only at h
    cases h
    exact ⟨as, rfl, rfl, rfl, rfl, rfl, rfl⟩

/-- The concatenation of all route passenger lists of a successful
`generate_routes_core` run is a permutation of the labelled input rows. -/
theorem generate_routes_core_perm [Inhabited P]
    {dur : P × Int → P × Int → ℚ} {caps : List Nat} {ps : List P}
    {labels : List Int} {r : RoutesResult P}
    (h : generate_routes_core dur caps ps labels = Except.ok r) :
    ((r.routes.map (fun rt => rt.passengers)).flatten).Perm (ps.zip labels) := by
  obtain ⟨as, hova, hroutes, _⟩ := generate_routes_core_ok h
  rw [hroutes]
  have hmap : (as.map (fun a => RouteInfo.mk a.capacity a.passengers_count
      (sequencePassengers dur a.passengers))).map (fun rt => rt.passengers) =
      as.map (fun a => sequencePassengers dur a.passengers) := by
    rw [List.map_map]
    rfl
  rw [hmap]
  refine List.Perm.trans
    (flatten_map_perm_of_pointwise as _ (fun a => a.passengers)
      (fun a _ => sequencePassengers_perm dur a.passengers)) ?_
  rw [optimize_ok_flatten hova]
  exact clustersOf_perm (cluster_passengers ps labels)

/-- In a successful run, the summed passenger counts equal the number of
clustered rows, and they are bounded by the summed capacities. -/
theorem optimize_ok_sum {caps : List Nat} {clusters : List (List P)}
    {as : List (VehicleAssignment P)}
    (h : optimize_vehicle_assignment caps clusters = Except.ok as) :
    (as.map (fun a => a.passengers_count)).sum = clusters.flatten.length ∧
      (as.map (fun a => a.passengers_count)).sum ≤
        (as.map (fun a => a.capacity)).sum := by
  have hinv := optimize_ok_inv h
  constructor
  · have hcounts : as.map (fun a => a.passengers_count) =
        as.map (fun a => a.passengers.length) := by
      refine List.map_congr_left ?_
      intro a ha
      exact ((hinv a ha).2.2).symm
    rw [hcounts, ← optimize_ok_flatten h, List.length_flatten, List.map_map]
    rfl
  · refine List.sum_le_sum ?_
    intro a ha
    exact (hinv a ha).1

/-! ## Symmetry and zero diagonal of the travel matrices -/

/-- A matrix is symmetric with a zero diagonal. -/
def SymmZeroDiag (m : Nat → Nat → ℚ) : Prop :=
  (∀ i j, m i j = m j i) ∧ ∀ i, m i i = 0

theorem writePair_symmZeroDiag {m : Nat → Nat → ℚ} {i j : Nat} {v : ℚ}
    (hij : i ≠ j) (hm : SymmZeroDiag m) :
    SymmZeroDiag (writeEntry (writeEntry m i j v) j i v) := by
  obtain ⟨hs, hd⟩ := hm
  constructor
  · intro a b
    simp only [writeEntry]
    split_ifs <;> first | rfl | (exact hs a b) | tauto
  · intro a
    simp only [writeEntry]
    split_ifs <;> first | (exact hd a) | omega

theorem fillRow_inv (q : Nat → Nat → ℚ) (i : Nat) (js : List Nat)
    (m : Nat → Nat → ℚ) (hm : SymmZeroDiag m) (hjs : ∀ j ∈ js, i ≠ j) :
    SymmZeroDiag (js.foldl
      (fun m' j => writeEntry (writeEntry m' i j (q i j)) j i (q i j)) m) := by
  induction js generalizing m with
  | nil => exact hm
  | cons j js ih =>
    simp only [List.foldl_cons]
    refine ih _ ?_ (fun x hx => hjs x (List.mem_cons_of_mem _ hx))
    exact writePair_symmZeroDiag (hjs j (List.mem_cons_self _ _)) hm

theorem fillPairs_symmZeroDiag (q : Nat → Nat → ℚ) (n : Nat) :
    SymmZeroDiag (fillPairs q n) := by
  unfold fillPairs
  have hzero : SymmZeroDiag (fun _ _ => (0 : ℚ)) :=
    ⟨fun _ _ => rfl, fun _ => rfl⟩
  generalize (fun _ _ => (0 : ℚ)) = m0 at hzero ⊢
  induction List.range n generalizing m0 with
  | nil => exact hzero
  | cons i is ih =>
    simp only [List.foldl_cons]
    refine ih _ ?_
    refine fillRow_inv q i _ m0 hzero ?_
    intro j hj
    obtain ⟨k, _, hk⟩ := List.mem_range'.mp hj
    omega

/-! ## The nearest-neighbour choice of `solve_tsp_greedy` -/

/-- Formalisation of the spec's wording for one greedy step: `x` is a
not-yet-visited index of minimal duration from `c`, and on ties it is the
lowest of the tied remaining indices. -/
def nearestChoice (key : Nat → ℚ) (x : Nat) (rem : List Nat) : Prop :=
  x ∈ rem ∧ ∀ y ∈ rem, key x < key y ∨ (key x = key y ∧ x ≤ y)

/-- Formalisation of the spec's wording for the whole heuristic: starting
with unvisited set `rem`, the tour repeatedly appends a `nearestChoice`
of the current index and removes it from the unvisited set, until none
remain. -/
def IsGreedyTour (D : Nat → Nat → ℚ) : Nat → List Nat → List Nat → Prop
  | _, rem, [] => rem = []
  | c, rem, x :: xs => nearestChoice (D c) x rem ∧
      IsGreedyTour D x (rem.erase x) xs

/-- On a strictly increasing list (Python set-iteration order for these
index sets), `min(..., key=...)` — the first element achieving the minimal
key — is exactly the spec's nearest choice with lowest-index tie-break. -/
theorem argminKey_nearestChoice {key : Nat → ℚ} {l : List Nat} {x : Nat}
    (hs : l.Sorted (· < ·)) (h : argminKey key l = some x) :
    nearestChoice key x l := by
  induction l generalizing x with
  | nil => simp [argminKey] at h
  | cons a t ih =>
    simp only [argminKey] at h
    cases ht : argminKey key t with
    | none =>
      rw [ht] at h
      simp only at h
      cases h
      have htnil : t = [] := by
        cases t with
        | nil => rfl
        | cons b s => exact absurd ht (argminKey_ne_none key b s)
      subst htnil
      exact ⟨List.mem_cons_self _ _, by simp⟩
    | some b =>
      rw [ht] at h
      simp only at h
      have hts : t.Sorted (· < ·) := hs.of_cons
      have hb := ih hts ht
      by_cases hlt : key b < key a
      · rw [if_pos hlt] at h
        cases h
        refine ⟨List.mem_cons_of_mem _ hb.1, ?_⟩
        intro y hy
        rcases List.mem_cons.mp hy with rfl | hy
        · exact Or.inl hlt
        · exact hb.2 y hy
      · rw [if_neg hlt] at h
        cases h
        refine ⟨List.mem_cons_self _ _, ?_⟩
        intro y hy
        rcases List.mem_cons.mp hy with rfl | hy
        · exact Or.inr ⟨rfl, le_refl _⟩
        · have hay : a < y := (List.sorted_cons.mp hs).1 y hy
          have hxb : key a ≤ key b := le_of_not_lt hlt
          rcases hb.2 y hy with hlt2 | ⟨heq2, _⟩
          · exact Or.inl (lt_of_le_of_lt hxb hlt2)
          · rcases lt_or_eq_of_le (hxb.trans (le_of_eq heq2)) with h3 | h3
            · exact Or.inl h3
            · exact Or.inr ⟨h3, le_of_lt hay⟩

theorem tspLoop_isGreedyTour (D : Nat → Nat → ℚ) (fuel current : Nat)
    (unvisited : List Nat) (hs : unvisited.Sorted (· < ·))
    (hfuel : unvisited.length ≤ fuel) :
    IsGreedyTour D current unvisited (tspLoop D fuel current unvisited) := by
  induction fuel generalizing current unvisited with
  | zero =>
    have : unvisited = [] := List.length_eq_zero.mp (Nat.le_zero.mp hfuel)
    subst this
    simp [tspLoop, IsGreedyTour]
  | succ fuel ih =>
    simp only [tspLoop]
    cases hmin : argminKey (D current) unvisited with
    | none =>
      cases unvisited with
      | nil => simp [IsGreedyTour]
      | cons x t => exact absurd hmin (argminKey_ne_none (D current) x t)
    | some nearest =>
      have hmem := argminKey_mem hmin
      refine ⟨argminKey_nearestChoice hs hmin, ?_⟩
      have hs2 : (unvisited.erase nearest).Sorted (· < ·) :=
        hs.sublist (List.erase_sublist nearest unvisited)
      have hlen : (unvisited.erase nearest).length ≤ fuel := by
        rw [List.length_erase_of_mem hmem]
        have : 0 < unvisited.length :=
          List.length_pos.mpr (List.ne_nil_of_mem hmem)
        omega
      exact ih nearest _ hs2 hlen

/-- `reassignNoise` renames labels only; the underlying rows are kept. -/
theorem reassignNoise_map_fst (k : Int) (xs : List (P × Int)) :
    (reassignNoise k xs).map Prod.fst = xs.map Prod.fst := by
  induction xs generalizing k with
  | nil => rfl
  | cons q t ih =>
    simp only [reassignNoise]
    by_cases hq : q.2 = -1
    · rw [if_pos hq]
      simp only [List.map_cons]
      rw [ih]
    · rw [if_neg hq]
      simp only [List.map_cons]
      rw [ih]

/-! ## Claim theorems -/

/-- C1: for every valid passenger set on which `generate_routes` completes
without a run-level failure (modelled as `generate_routes_core` returning
`Except.ok`, with positive configured capacities and one clustering label
per passenger), each input passenger appears in exactly one route's
passenger list and no route contains a passenger absent from the input:
the concatenation of all route passenger lists is a permutation of the
labelled input rows, and, projected back to the raw rows, of the input
passenger list itself. -/
theorem C1_routes_partition_input [Inhabited P]
    (dur : P × Int → P × Int → ℚ) (caps : List Nat) (ps : List P)
    (labels : List Int) (r : RoutesResult P)
    (hpos : ∀ c ∈ caps, 0 < c) (hlen : labels.length = ps.length)
    (h : generate_routes_core dur caps ps labels = Except.ok r) :
    ((r.routes.map (fun rt => rt.passengers)).flatten).Perm (ps.zip labels) ∧
      (((r.routes.map (fun rt => rt.passengers)).flatten).map Prod.fst).Perm ps := by
  have hperm := generate_routes_core_perm h
  refine ⟨hperm, ?_⟩
  have hmap := List.Perm.map Prod.fst hperm
  rw [List.map_fst_zip ps labels (le_of_eq hlen.symm)] at hmap
  exact hmap

/-- Witness for C1: a concrete one-passenger run, with the route list the
run actually produces. -/
theorem C1_routes_partition_input_witness :
    (((RoutesResult.mk [⟨8, 1, [((0 : Nat), (0 : Int))]⟩]
          ⟨1, 1, 8, 1 / 8⟩).routes.map
            (fun rt => rt.passengers)).flatten).Perm
        ([(0 : Nat)].zip [(0 : Int)]) ∧
      ((((RoutesResult.mk [⟨8, 1, [((0 : Nat), (0 : Int))]⟩]
          ⟨1, 1, 8, 1 / 8⟩).routes.map
            (fun rt => rt.passengers)).flatten).map Prod.fst).Perm [(0 : Nat)] :=
  C1_routes_partition_input (fun _ _ => 0) [40, 20, 19, 15, 8] [0] [0] _
    (by decide) rfl rfl

/-- C2: for a single cluster of 25 passengers with capacity catalog
`[8, 15, 19, 20, 40]` (stored descending by `__init__`),
`optimize_vehicle_assignment` produces exactly two assignments — capacity
20 carrying 20 passengers and capacity 8 carrying the remaining 5 — and,
for any travel-duration oracle, the fleet summary is 2 vehicles, 25
passengers, total capacity 28 and utilization `25/28`. -/
theorem C2_scenario_25_passengers (dur : Nat × Int → Nat × Int → ℚ) :
    assignCluster (initBusCapacities [8, 15, 19, 20, 40]) (List.range 25) =
      Except.ok [⟨20, 20, (List.range 25).take 20⟩,
        ⟨8, 5, (List.range 25).drop 20⟩] ∧
    (generate_routes dur (initBusCapacities [8, 15, 19, 20, 40])
        (List.range 25) (List.replicate 25 0)).summary = ⟨25, 2, 28, 25 / 28⟩ := by
  constructor
  · rfl
  · have hova : optimize_vehicle_assignment (initBusCapacities [8, 15, 19, 20, 40])
        (clustersOf (cluster_passengers (List.range 25) (List.replicate 25 0))) =
        Except.ok [⟨20, 20, ((List.range 25).zip (List.replicate 25 0)).take 20⟩,
          ⟨8, 5, ((List.range 25).zip (List.replicate 25 0)).drop 20⟩] := by rfl
    unfold generate_routes generate_routes_core
    rw [hova]
    simp only [List.map_cons, List.map_nil, List.length_cons, List.length_nil,
      List.sum_cons, List.sum_nil, List.length_range]
    norm_num

/-- C3: for every cluster input with positive configured capacities, every
`VehicleAssignment` an `Except.ok` run of `optimize_vehicle_assignment`
produces for the cluster satisfies `passengers_count ≤ capacity` with
`capacity` a member of the configured catalog, and the passenger counts of
all of the cluster's assignments sum to the cluster's size. -/
theorem C3_assignment_invariants (caps : List Nat) (ps : List P)
    (as : List (VehicleAssignment P)) (hpos : ∀ c ∈ caps, 0 < c)
    (h : assignCluster caps ps = Except.ok as) :
    (∀ a ∈ as, a.passengers_count ≤ a.capacity ∧ a.capacity ∈ caps) ∧
      (as.map (fun a => a.passengers_count)).sum = ps.length := by
  refine ⟨?_, assignCluster_ok_sum h⟩
  intro a ha
  obtain ⟨h1, h2, _⟩ := assignCluster_ok_inv h a ha
  exact ⟨h1, h2⟩

/-- Witness for C3: the 25-passenger cluster against the default catalog. -/
theorem C3_assignment_invariants_witness :
    (∀ a ∈ [(⟨20, 20, (List.range 25).take 20⟩ : VehicleAssignment Nat),
        ⟨8, 5, (List.range 25).drop 20⟩],
      a.passengers_count ≤ a.capacity ∧ a.capacity ∈ [40, 20, 19, 15, 8]) ∧
      ([(⟨20, 20, (List.range 25).take 20⟩ : VehicleAssignment Nat),
        ⟨8, 5, (List.range 25).drop 20⟩].map
          (fun a => a.passengers_count)).sum = (List.range 25).length :=
  C3_assignment_invariants [40, 20, 19, 15, 8] (List.range 25) _
    (by decide) rfl

/-- C4: the sequencing step of `generate_routes` always returns a
permutation of its input passengers; for 0 or 1 passengers it returns the
input unchanged (taking the matrix-free branch); and for every `n ≥ 1`,
`solve_tsp_greedy` on an `n × n` matrix returns a permutation of the
indices `0, ..., n-1`. -/
theorem C4_sequencer_permutation [Inhabited Q] (dur : Q → Q → ℚ)
    (ps : List Q) (D : Nat → Nat → ℚ) (n : Nat) (hn : 1 ≤ n) :
    (sequencePassengers dur ps).Perm ps ∧
      (ps.length ≤ 1 → sequencePassengers dur ps = ps) ∧
      (solve_tsp_greedy D n).Perm (List.range n) :=
  ⟨sequencePassengers_perm dur ps,
    fun h => sequencePassengers_short dur ps h,
    solve_tsp_greedy_perm D n hn⟩

/-- Witness for C4: a concrete three-row bus and a 3 × 3 matrix. -/
theorem C4_sequencer_permutation_witness :
    (sequencePassengers (fun _ _ => (0 : ℚ)) [(5 : Nat)]).Perm [(5 : Nat)] ∧
      ([(5 : Nat)].length ≤ 1 →
        sequencePassengers (fun _ _ => (0 : ℚ)) [(5 : Nat)] = [(5 : Nat)]) ∧
      (solve_tsp_greedy (fun _ _ => (0 : ℚ)) 3).Perm (List.range 3) :=
  C4_sequencer_permutation (fun _ _ => 0) [5] (fun _ _ => 0) 3 (by decide)

/-- C5: for every travel matrix over `n ≥ 2` passengers,
`solve_tsp_greedy` starts at index 0 of the input order and then
repeatedly appends the not-yet-visited index of minimal matrix duration
from the current index, choosing the lowest remaining index on ties
(`IsGreedyTour` is the spec's wording; the implementation's
`min(unvisited, key=...)` refines it because the unvisited indices are
iterated in increasing order). -/
theorem C5_nearest_neighbour_steps (D : Nat → Nat → ℚ) (n : Nat)
    (hn : 2 ≤ n) :
    (solve_tsp_greedy D n).head? = some 0 ∧
      IsGreedyTour D 0 ((List.range n).erase 0) (solve_tsp_greedy D n).tail := by
  constructor
  · rfl
  · show IsGreedyTour D 0 ((List.range n).erase 0)
      (tspLoop D n 0 ((List.range n).erase 0))
    have h0 : 0 ∈ List.range n := List.mem_range.mpr (by omega)
    have hs : ((List.range n).erase 0).Sorted (· < ·) :=
      (List.sorted_lt_range n).sublist (List.erase_sublist 0 (List.range n))
    have hlen : ((List.range n).erase 0).length ≤ n := by
      rw [List.length_erase_of_mem h0, List.length_range]
      omega
    exact tspLoop_isGreedyTour D n 0 _ hs hlen

/-- Witness for C5: the 3 × 3 constant matrix, where every step is a tie
resolved to the lowest remaining index. -/
theorem C5_nearest_neighbour_steps_witness :
    (solve_tsp_greedy (fun _ _ => (0 : ℚ)) 3).head? = some 0 ∧
      IsGreedyTour (fun _ _ => (0 : ℚ)) 0 ((List.range 3).erase 0)
        (solve_tsp_greedy (fun _ _ => (0 : ℚ)) 3).tail :=
  C5_nearest_neighbour_steps (fun _ _ => 0) 3 (by decide)

/-- C6: whenever the primary routing-service path of
`get_route_duration_distance` fails — an exception before a payload is
decoded (network failure, timeout, non-success response, malformed
payload), a payload whose `code` is not `'Ok'`, or an empty `routes`
array — the call still returns a result, with kilometers equal to the
geodesic distance of the two points and minutes equal to
`kilometers / 25 * 60`; the fallback is a total pure function of the
coordinates, so no external-service error reaches the caller. -/
theorem C6_fallback_formula (geo : ℚ × ℚ → ℚ × ℚ → ℚ) (reply : OSRMReply)
    (origin destination : ℚ × ℚ)
    (h : ∀ code legs, reply = OSRMReply.payload code legs →
      code ≠ "Ok" ∨ legs = []) :
    get_route_duration_distance geo reply origin destination =
      (geo origin destination / 25 * 60, geo origin destination) := by
  unfold get_route_duration_distance
  split
  · rename_i route rest
    rcases h "Ok" (route :: rest) rfl with hcode | hlegs
    · exact absurd rfl hcode
    · simp at hlegs
  · rfl

/-- Witness for C6: a timed-out request over points 10 km apart yields
24 minutes and 10 km. -/
theorem C6_fallback_formula_witness :
    get_route_duration_distance (fun _ _ => 10) (OSRMReply.failure "timeout")
      (0, 0) (1, 1) = ((10 : ℚ) / 25 * 60, 10) :=
  C6_fallback_formula (fun _ _ => 10) (OSRMReply.failure "timeout") (0, 0) (1, 1)
    (fun _ _ heq => by cases heq)

/-- C7: every travel matrix built by `calculate_real_distance_matrix`
(and likewise every geodesic matrix built by `calculate_distance_matrix`)
is symmetric — entry `(i, j)` equals entry `(j, i)`, both directions being
written from one query per unordered pair — and has zero diagonal. -/
theorem C7_matrix_symmetric_zero_diag (q : Nat → Nat → ℚ) (n : Nat) :
    (∀ i j, calculate_real_distance_matrix q n i j =
        calculate_real_distance_matrix q n j i) ∧
      (∀ i, calculate_real_distance_matrix q n i i = 0) ∧
      (∀ i j, calculate_distance_matrix q n i j =
        calculate_distance_matrix q n j i) ∧
      (∀ i, calculate_distance_matrix q n i i = 0) := by
  obtain ⟨hs, hd⟩ := fillPairs_symmZeroDiag q n
  exact ⟨hs, hd, hs, hd⟩

/-- C8: in every summary of a successful `generate_routes` run,
`utilization_rate` equals `total_passengers / total_capacity` guarded by
`total_capacity > 0`, lies in `[0, 1]` whenever `total_capacity > 0`, and
is exactly 0 when `total_capacity = 0` (the division is the guarded one
`len(passengers) / total_capacity if total_capacity > 0 else 0`). -/
theorem C8_utilization_bounds [Inhabited P]
    (dur : P × Int → P × Int → ℚ) (caps : List Nat) (ps : List P)
    (labels : List Int) (r : RoutesResult P)
    (hpos : ∀ c ∈ caps, 0 < c) (hlen : labels.length = ps.length)
    (h : generate_routes_core dur caps ps labels = Except.ok r) :
    r.summary.utilization_rate =
        (if 0 < r.summary.total_capacity then
          (r.summary.total_passengers : ℚ) / (r.summary.total_capacity : ℚ)
        else 0) ∧
      (0 < r.summary.total_capacity →
        0 ≤ r.summary.utilization_rate ∧ r.summary.utilization_rate ≤ 1) ∧
      (r.summary.total_capacity = 0 → r.summary.utilization_rate = 0) := by
  obtain ⟨as, hova, hroutes, hp, hb, hc, hu⟩ := generate_routes_core_ok h
  have hcaps : r.routes.map (fun rt => rt.capacity) =
      as.map (fun a => a.capacity) := by
    rw [hroutes, List.map_map]
    rfl
  have hple : ps.length ≤ (r.routes.map (fun rt => rt.capacity)).sum := by
    rw [hcaps]
    obtain ⟨hsum, hle⟩ := optimize_ok_sum hova
    have hzip : (clustersOf (cluster_passengers ps labels)).flatten.length =
        ps.length := by
      rw [List.Perm.length_eq (clustersOf_perm (cluster_passengers ps labels))]
      unfold cluster_passengers
      rw [List.length_zip, hlen, Nat.min_self]
    omega
  constructor
  · rw [hu, hc, hp]
  constructor
  · intro hcap
    rw [hc] at hcap
    rw [hu, if_pos hcap]
    constructor
    · positivity
    · rw [div_le_one (by exact_mod_cast hcap)]
      exact_mod_cast hple
  · intro hcap
    rw [hc] at hcap
    rw [hu, hcap]
    simp

/-- Witness for C8: the concrete one-passenger run (1 passenger in an
8-seat vehicle, utilization `1/8`). -/
theorem C8_utilization_bounds_witness :
    (RoutesResult.mk [⟨8, 1, [((0 : Nat), (0 : Int))]⟩]
          ⟨1, 1, 8, 1 / 8⟩).summary.utilization_rate =
        (if 0 < (RoutesResult.mk [⟨8, 1, [((0 : Nat), (0 : Int))]⟩]
            ⟨1, 1, 8, 1 / 8⟩).summary.total_capacity then
          ((RoutesResult.mk [⟨8, 1, [((0 : Nat), (0 : Int))]⟩]
            ⟨1, 1, 8, 1 / 8⟩).summary.total_passengers : ℚ) /
            ((RoutesResult.mk [⟨8, 1, [((0 : Nat), (0 : Int))]⟩]
              ⟨1, 1, 8, 1 / 8⟩).summary.total_capacity : ℚ)
        else 0) ∧
      (0 < (RoutesResult.mk [⟨8, 1, [((0 : Nat), (0 : Int))]⟩]
          ⟨1, 1, 8, 1 / 8⟩).summary.total_capacity →
        0 ≤ (RoutesResult.mk [⟨8, 1, [((0 : Nat), (0 : Int))]⟩]
            ⟨1, 1, 8, 1 / 8⟩).summary.utilization_rate ∧
          (RoutesResult.mk [⟨8, 1, [((0 : Nat), (0 : Int))]⟩]
            ⟨1, 1, 8, 1 / 8⟩).summary.utilization_rate ≤ 1) ∧
      ((RoutesResult.mk [⟨8, 1, [((0 : Nat), (0 : Int))]⟩]
          ⟨1, 1, 8, 1 / 8⟩).summary.total_capacity = 0 →
        (RoutesResult.mk [⟨8, 1, [((0 : Nat), (0 : Int))]⟩]
          ⟨1, 1, 8, 1 / 8⟩).summary.utilization_rate = 0) :=
  C8_utilization_bounds (fun _ _ => 0) [40, 20, 19, 15, 8] [0] [0] _
    (by decide) rfl (by rfl)

/-- C9 counterexample: with an empty capacity catalog — the one
capacity-infeasible situation reachable in the code — a one-passenger run
of `generate_routes` returns exactly the generic all-zero empty result of
the blanket `except` handler, indistinguishable from any other run-level
failure, so the infeasibility is **not** reported distinctly to the
caller. -/
theorem C9_counterexample_generic_empty :
    generate_routes (fun _ _ => (0 : ℚ)) ([] : List Nat) [(0 : Nat)]
      [(0 : Int)] = emptyRoutesResult Nat := rfl

/-- C9 (amended): when the catalog has no sufficient capacity,
`optimize_vehicle_assignment` itself raises an error (Python's
`ValueError` from `min` of an empty sequence) rather than silently
dropping the passengers, but `generate_routes` catches every exception and
maps the condition to the same generic empty result as any other run-level
failure. -/
theorem C9_amended_raise_then_fold :
    assignCluster ([] : List Nat) [(0 : Nat)] =
      Except.error "min() arg is an empty sequence" ∧
    generate_routes_core (fun _ _ => (0 : ℚ)) ([] : List Nat) [(0 : Nat)]
      [(0 : Int)] = Except.error "min() arg is an empty sequence" ∧
    generate_routes (fun _ _ => (0 : ℚ)) ([] : List Nat) [(0 : Nat)]
      [(0 : Int)] = emptyRoutesResult Nat :=
  ⟨rfl, rfl, rfl⟩

/-- C10: passenger rows are never mutated by the core pipeline:
`cluster_passengers` (both the k-means default and the DBSCAN noise pass)
returns every row of the caller's collection unchanged, attaching only a
cluster label, and every row appearing in any route of a successful run is
one of the input rows, field for field. -/
theorem C10_rows_never_mutated [Inhabited P]
    (dur : P × Int → P × Int → ℚ) (caps : List Nat) (ps : List P)
    (labels : List Int) (r : RoutesResult P)
    (hlen : labels.length = ps.length)
    (h : generate_routes_core dur caps ps labels = Except.ok r) :
    (cluster_passengers ps labels).map Prod.fst = ps ∧
      (cluster_passengers_dbscan ps labels).map Prod.fst = ps ∧
      ∀ rt ∈ r.routes, ∀ q ∈ rt.passengers, q.1 ∈ ps := by
  have hfst : (ps.zip labels).map Prod.fst = ps :=
    List.map_fst_zip ps labels (le_of_eq hlen.symm)
  refine ⟨hfst, ?_, ?_⟩
  · unfold cluster_passengers_dbscan
    by_cases hany : (ps.zip labels).any (fun q => q.2 == -1)
    · rw [if_pos hany, reassignNoise_map_fst]
      exact hfst
    · rw [if_neg hany]
      exact hfst
  · intro rt hrt q hq
    obtain ⟨a, b⟩ := q
    have hflat : (a, b) ∈ (r.routes.map (fun rt => rt.passengers)).flatten := by
      rw [List.mem_flatten]
      exact ⟨rt.passengers, List.mem_map_of_mem _ hrt, hq⟩
    have hzip : (a, b) ∈ ps.zip labels :=
      (List.Perm.mem_iff (generate_routes_core_perm h)).mp hflat
    exact (List.of_mem_zip hzip).1

/-- Witness for C10: the concrete one-passenger run. -/
theorem C10_rows_never_mutated_witness :
    (cluster_passengers [(0 : Nat)] [(0 : Int)]).map Prod.fst = [(0 : Nat)] ∧
      (cluster_passengers_dbscan [(0 : Nat)] [(0 : Int)]).map Prod.fst =
        [(0 : Nat)] ∧
      ∀ rt ∈ (RoutesResult.mk [⟨8, 1, [((0 : Nat), (0 : Int))]⟩]
          ⟨1, 1, 8, 1 / 8⟩).routes, ∀ q ∈ rt.passengers, q.1 ∈ [(0 : Nat)] :=
  C10_rows_never_mutated (fun _ _ => 0) [40, 20, 19, 15, 8] [0] [0] _
    rfl rfl
